import Mathlib

/-!
Verification development for the PubQuizApp repository.

The definitions below are shallow embeddings of the TypeScript sources:
* `src/model/game.ts` (class `Game`): the game state machine
  (`setCurState`, `currentState`, `getGameDataMsg`, `gameStateChange`,
  `removeGameListener`), the player roster (`updateScores`,
  `playerDataDump`) and the listener fan-out loops.
* `src/controller/server.ts` (class `Server`): route registration
  (`addServerListener`), websocket dispatch and the heartbeat wrapper
  (`makePingable`).

Machine numbers of the source are modelled as `Int` (scores, indices) and
`Nat` (list positions); JS `Map` objects are modelled as association lists
in insertion order; `undefined` results are modelled with `Option`.
-/

namespace PubQuiz

/-- Payload of a game data message.  In the source a `GameDataMsg` is a JS
object that always carries a `widget_name` field after merging; before the
merge the field may be absent, which is modelled with `Option`.  All other
fields of the object are opaque for the claims and collapsed into `info`. -/
structure GameDataMsg where
  widget_name : Option String
  info : String
deriving DecidableEq

/-- One game state of the sequence, reduced to the capabilities the claims
need: its `name` and the message its `stateMsg()` method returns. -/
structure GState where
  name : String
  status : GameDataMsg
deriving DecidableEq

/-- The state-machine part of class `Game` (game.ts): the ordered
`state_sequence` and the current index `cur_state_idx`. -/
structure GameSM where
  states : List GState
  cur : Nat
deriving DecidableEq

/-- Observable lifecycle events emitted while the state machine runs.  A
transition emits `endActive`/`beginActive` calls, the announcement on the
notification bus, and `warn` models the `console.warn` no-op path. -/
inductive GEvent where
  | endActive (idx : Nat)
  | beginActive (idx : Nat)
  | announce (msg : GameDataMsg)
  | warn
deriving DecidableEq

/-- Default game state used to model the JS behaviour of indexing; every
theorem only evaluates it at indices that are in range. -/
def defaultGState : GState := ⟨"", ⟨none, ""⟩⟩

/-- Embedding of `this.state_sequence[this.cur_state_idx]`
(game.ts, `currentState`, lines 88-90), total variant. -/
def currentStateD (g : GameSM) : GState :=
  g.states.getD g.cur defaultGState

/-- Embedding of `currentState` returning `none` when the index is out of
range (JS would yield `undefined` there). -/
def currentStateOpt (g : GameSM) : Option GState :=
  g.states[g.cur]?

/-- Embedding of the JS object spread `{ widget_name: n, ...msg }`
(game.ts lines 171-173 and line 182): properties that occur later in the
literal win, so when `msg` carries its own `widget_name` that value
overrides the default `n`. -/
def spreadWidgetName (n : String) (msg : GameDataMsg) : GameDataMsg :=
  { widget_name := some (msg.widget_name.getD n), info := msg.info }

/-- Embedding of `getGameDataMsg` (game.ts lines 168-174):
`{ widget_name: cur_state.name, ...cur_state.stateMsg() }`. -/
def getGameDataMsg (g : GameSM) : GameDataMsg :=
  spreadWidgetName (currentStateD g).name (currentStateD g).status

/-- Modelled from the spec: the file `gamestate.ts` (abstract class
`GameState`, whose `begin_active` implementation announces the transition)
is not under `src/`.  Per the spec (section 4.1) the transition is
announced via the NotificationBus after `begin_active`, with payload
`{ widget_name: new state name, ...status message }`, which is exactly
what `getGameDataMsg` (game.ts lines 168-174) builds for the now-current
state. -/
def announceOnBegin (g : GameSM) : List GEvent :=
  [GEvent.announce (getGameDataMsg g)]

/-- Resolution of the target index of `setCurState` (game.ts lines
120-121): `if (relative) idx += this.cur_state_idx`. -/
def resolveIdx (g : GameSM) (idx : Int) (relative : Bool) : Int :=
  if relative then idx + (g.cur : Int) else idx

/-- Embedding of `setCurState` (game.ts lines 119-138).  Returns the new
machine state together with the emitted event trace.  The guard is the
literal source condition
`idx < 0 || idx >= this.state_sequence.length || length === 0`. -/
def setCurState (g : GameSM) (idx : Int) (relative : Bool) : GameSM × List GEvent :=
  if resolveIdx g idx relative < 0 ∨
      (g.states.length : Int) ≤ resolveIdx g idx relative ∨
      g.states.length = 0 then
    (g, [GEvent.warn])
  else
    (⟨g.states, (resolveIdx g idx relative).toNat⟩,
     [GEvent.endActive g.cur, GEvent.beginActive (resolveIdx g idx relative).toNat]
       ++ announceOnBegin ⟨g.states, (resolveIdx g idx relative).toNat⟩)

/-- Modelled from the spec: the `Game` constructor (game.ts lines 41-66)
first constructs `Lobby` and then every configured state; each state adds
itself to `state_sequence` on construction through
`makeGameStateAddSelf` (game.ts lines 81-83, per its doc comment), with
`lobby.ts` and `gamestate.ts` not under `src/`.  Hence after construction
the sequence is `lobby` followed by the configured states, and
`cur_state_idx` is `0`. -/
def mkGame (lobby : GState) (cfg : List GState) : GameSM :=
  { states := lobby :: cfg, cur := 0 }

/-- Runs a list of `setCurState` calls (absolute or relative targets) in
order, keeping only the machine state. -/
def runCalls (g : GameSM) (calls : List (Int × Bool)) : GameSM :=
  calls.foldl (fun g c => (setCurState g c.1 c.2).1) g

theorem setCurState_states (g : GameSM) (idx : Int) (rel : Bool) :
    (setCurState g idx rel).1.states = g.states := by
  unfold setCurState
  split
  · rfl
  · rfl

theorem setCurState_inv (g : GameSM) (idx : Int) (rel : Bool)
    (h : g.cur < g.states.length) :
    (setCurState g idx rel).1.cur < (setCurState g idx rel).1.states.length := by
  unfold setCurState
  split
  · exact h
  · rename_i hcond
    push_neg at hcond
    show (resolveIdx g idx rel).toNat < g.states.length
    omega

theorem runCalls_states (g : GameSM) (calls : List (Int × Bool)) :
    (runCalls g calls).states = g.states := by
  induction calls generalizing g with
  | nil => rfl
  | cons c cs ih =>
    simp only [runCalls, List.foldl_cons] at *
    rw [ih, setCurState_states]

theorem runCalls_inv (g : GameSM) (calls : List (Int × Bool))
    (h : g.cur < g.states.length) :
    (runCalls g calls).cur < (runCalls g calls).states.length := by
  induction calls generalizing g with
  | nil => exact h
  | cons c cs ih =>
    simp only [runCalls, List.foldl_cons] at *
    exact ih _ (setCurState_inv g c.1 c.2 h)

/-- C2: whenever the resulting index of a `setCurState` call is inside
`[0, length)` — including a target equal to the current index — the call
sets the index to the target and emits, strictly in this order,
`end_active` of the old state, `begin_active` of the new state, and the
announcement on the notification bus whose payload is the new state name
merged with the new state status message (`getGameDataMsg`). -/
theorem setCurState_valid_transition (g : GameSM) (idx : Int) (rel : Bool)
    (j : Int) (hj : j = resolveIdx g idx rel)
    (h0 : 0 ≤ j) (h1 : j < (g.states.length : Int)) :
    setCurState g idx rel =
      (⟨g.states, j.toNat⟩,
       [GEvent.endActive g.cur, GEvent.beginActive j.toNat,
        GEvent.announce (getGameDataMsg ⟨g.states, j.toNat⟩)]) := by
  unfold setCurState
  rw [← hj, if_neg (by omega)]
  rfl

/-- Witness for C2 at a concrete input: a relative call whose target index
equals the current index (the legal refresh transition). -/
theorem setCurState_valid_transition_witness :
    setCurState ⟨[⟨"lobby", ⟨none, "sl"⟩⟩, ⟨"q1", ⟨none, "s1"⟩⟩], 1⟩ 0 true =
      (⟨[⟨"lobby", ⟨none, "sl"⟩⟩, ⟨"q1", ⟨none, "s1"⟩⟩], 1⟩,
       [GEvent.endActive 1, GEvent.beginActive 1,
        GEvent.announce ⟨some "q1", "s1"⟩]) :=
  setCurState_valid_transition
    ⟨[⟨"lobby", ⟨none, "sl"⟩⟩, ⟨"q1", ⟨none, "s1"⟩⟩], 1⟩ 0 true 1
    (by decide) (by decide) (by decide)

/-- C5: whenever the resulting index of a `setCurState` call is outside
`[0, length)` (which subsumes the empty-sequence case), the call is a
warning no-op: the machine state is unchanged and the only emitted event
is the warning — no lifecycle call and no announcement. -/
theorem setCurState_out_of_range_noop (g : GameSM) (idx : Int) (rel : Bool)
    (j : Int) (hj : j = resolveIdx g idx rel)
    (hout : j < 0 ∨ (g.states.length : Int) ≤ j) :
    setCurState g idx rel = (g, [GEvent.warn]) := by
  unfold setCurState
  rw [← hj, if_pos (by omega)]

/-- Witness for C5 at a concrete input: an absolute out-of-range target on
a two-state machine. -/
theorem setCurState_out_of_range_noop_witness :
    setCurState ⟨[⟨"lobby", ⟨none, "sl"⟩⟩, ⟨"q1", ⟨none, "s1"⟩⟩], 1⟩ 5 false =
      (⟨[⟨"lobby", ⟨none, "sl"⟩⟩, ⟨"q1", ⟨none, "s1"⟩⟩], 1⟩, [GEvent.warn]) :=
  setCurState_out_of_range_noop
    ⟨[⟨"lobby", ⟨none, "sl"⟩⟩, ⟨"q1", ⟨none, "s1"⟩⟩], 1⟩ 5 false 5
    (by decide) (by decide)

/-- C10: after construction the state sequence is `lobby :: configured`
(never empty), and after any sequence of `setCurState` calls the sequence
is unchanged, the invariant `cur < length` holds, and `currentState`
returns a defined state. -/
theorem mkGame_invariant (lobby : GState) (cfg : List GState)
    (calls : List (Int × Bool)) :
    (runCalls (mkGame lobby cfg) calls).states = lobby :: cfg ∧
    (runCalls (mkGame lobby cfg) calls).states ≠ [] ∧
    (runCalls (mkGame lobby cfg) calls).cur <
      (runCalls (mkGame lobby cfg) calls).states.length ∧
    (currentStateOpt (runCalls (mkGame lobby cfg) calls)).isSome = true := by
  have hs : (runCalls (mkGame lobby cfg) calls).states = lobby :: cfg :=
    runCalls_states (mkGame lobby cfg) calls
  have hi := runCalls_inv (mkGame lobby cfg) calls (by simp [mkGame])
  refine ⟨hs, by rw [hs]; simp, hi, ?_⟩
  simp only [currentStateOpt]
  rw [List.getElem?_eq_getElem hi]
  rfl

/-- One player record (game.ts, type `Player`): the `name` is the key of
the surrounding map and therefore not repeated here. -/
structure Player where
  score : Int
  isplaying : Bool
deriving DecidableEq

/-- The roster part of class `Game`: the configured scores and the player
map `players : Map<string, Player>`, modelled as an association list in
insertion order. -/
structure GameModel where
  start_score : Int
  reset_score : Int
  players : List (String × Player)
deriving DecidableEq

/-- Embedding of `Map.get(k)`: the value stored under key `k`, or `none`
(JS `undefined`) when the key is absent. -/
def mapGet {β : Type} (m : List (String × β)) (k : String) : Option β :=
  match m with
  | [] => none
  | (a, v) :: t => if k = a then some v else mapGet t k

/-- Embedding of the in-place mutation `player.score = ns` for the player
stored under key `n` (a JS `Map` holds each key once; `setScore` rewrites
every entry with that key, which coincides on maps). -/
def setScore (ps : List (String × Player)) (n : String) (ns : Int) :
    List (String × Player) :=
  match ps with
  | [] => []
  | (a, p) :: t =>
    if a = n then (a, { p with score := ns }) :: setScore t n ns
    else (a, p) :: setScore t n ns

/-- Embedding of the running minimum of `updateScores` (game.ts line 321):
`min_score` starts at `Infinity`, modelled as `none`. -/
def minOpt (m : Option Int) (x : Int) : Int :=
  match m with
  | none => x
  | some w => min w x

/-- Embedding of the first loop of `updateScores` (game.ts lines 317-325):
iterate over the deltas map in insertion order; an existing player gets
`score = additive ? score + delta : delta` and enters the running minimum,
an unknown name is skipped with a warning. -/
def updateLoop (ps : List (String × Player)) (deltas : List (String × Int))
    (additive : Bool) (m : Option Int) : List (String × Player) × Option Int :=
  match deltas with
  | [] => (ps, m)
  | (n, d) :: rest =>
    match mapGet ps n with
    | some p =>
      updateLoop (setScore ps n (if additive then p.score + d else d)) rest additive
        (some (minOpt m (if additive then p.score + d else d)))
    | none => updateLoop ps rest additive m

/-- Embedding of the rebalancing loop of `updateScores` (game.ts lines
327-330): `player.score += -min_score + reset_score` for every player. -/
def boostAll (ps : List (String × Player)) (c : Int) : List (String × Player) :=
  match ps with
  | [] => []
  | (a, p) :: t => (a, { p with score := p.score + c }) :: boostAll t c

/-- Embedding of `updateScores` (game.ts lines 313-336).  Returns the new
game together with the returned boolean `min_score >= 0` (with
`min_score = Infinity`, i.e. `none`, the comparison is true). -/
def updateScores (g : GameModel) (deltas : List (String × Int))
    (additive : Bool) : GameModel × Bool :=
  match updateLoop g.players deltas additive none with
  | (ps, some v) =>
    if v < 0 then ({ g with players := boostAll ps (-v + g.reset_score) }, false)
    else ({ g with players := ps }, true)
  | (ps, none) => ({ g with players := ps }, true)

theorem setScore_keys (ps : List (String × Player)) (n : String) (ns : Int) :
    (setScore ps n ns).map Prod.fst = ps.map Prod.fst := by
  induction ps with
  | nil => rfl
  | cons q t ih =>
    obtain ⟨a, p⟩ := q
    simp only [setScore]
    by_cases h : a = n
    · rw [if_pos h]
      simp only [List.map_cons, ih]
    · rw [if_neg h]
      simp only [List.map_cons, ih]

theorem mapGet_setScore (ps : List (String × Player)) (n x : String) (ns : Int) :
    mapGet (setScore ps n ns) x =
      if x = n then (mapGet ps x).map (fun p => { p with score := ns })
      else mapGet ps x := by
  induction ps with
  | nil => simp [setScore, mapGet]
  | cons q t ih =>
    obtain ⟨a, p⟩ := q
    simp only [setScore]
    by_cases han : a = n
    · subst han
      rw [if_pos rfl]
      by_cases hxa : x = a
      · subst hxa
        simp [mapGet]
      · simp only [mapGet, if_neg hxa, ih]
    · rw [if_neg han]
      by_cases hxa : x = a
      · subst hxa
        simp [mapGet, han]
      · simp only [mapGet, if_neg hxa, ih]

theorem updateLoop_keys (deltas : List (String × Int))
    (ps : List (String × Player)) (additive : Bool) (m : Option Int) :
    (updateLoop ps deltas additive m).1.map Prod.fst = ps.map Prod.fst := by
  induction deltas generalizing ps m with
  | nil => rfl
  | cons q rest ih =>
    obtain ⟨n, d⟩ := q
    simp only [updateLoop]
    cases mapGet ps n with
    | some p => rw [ih, setScore_keys]
    | none => rw [ih]

theorem mapGet_updateLoop_not_mem (deltas : List (String × Int))
    (ps : List (String × Player)) (additive : Bool) (m : Option Int)
    (x : String) (hx : x ∉ deltas.map Prod.fst) :
    mapGet (updateLoop ps deltas additive m).1 x = mapGet ps x := by
  induction deltas generalizing ps m with
  | nil => rfl
  | cons q rest ih =>
    obtain ⟨n, d⟩ := q
    simp only [List.map_cons, List.mem_cons, not_or] at hx
    simp only [updateLoop]
    cases mapGet ps n with
    | some p =>
      rw [ih _ _ hx.2, mapGet_setScore, if_neg hx.1]
    | none => exact ih _ _ hx.2

theorem updateLoop_min_le (deltas : List (String × Int))
    (ps : List (String × Player)) (additive : Bool) (w v : Int)
    (h : (updateLoop ps deltas additive (some w)).2 = some v) : v ≤ w := by
  induction deltas generalizing ps w with
  | nil =>
    simp only [updateLoop, Option.some.injEq] at h
    omega
  | cons q rest ih =>
    obtain ⟨n, d⟩ := q
    simp only [updateLoop] at h
    cases hl : mapGet ps n with
    | some p =>
      rw [hl] at h
      simp only [minOpt] at h
      have := ih _ _ h
      omega
    | none =>
      rw [hl] at h
      exact ih _ _ h

theorem updateLoop_min_mem (deltas : List (String × Int)) (additive : Bool)
    (v : Int) (x : String) (p0 : Player) :
    ∀ (ps : List (String × Player)) (m : Option Int),
    (deltas.map Prod.fst).Nodup →
    (updateLoop ps deltas additive m).2 = some v →
    x ∈ deltas.map Prod.fst →
    mapGet ps x = some p0 →
    ∃ p, mapGet (updateLoop ps deltas additive m).1 x = some p ∧
      v ≤ p.score := by
  induction deltas with
  | nil =>
    intro ps m _ _ hx _
    simp at hx
  | cons q rest ih =>
    obtain ⟨n, d⟩ := q
    intro ps m hn hm hx hp0
    simp only [List.map_cons, List.nodup_cons] at hn
    simp only [List.map_cons, List.mem_cons] at hx
    simp only [updateLoop] at hm ⊢
    rcases hx with hx | hx
    · -- the head delta updates player x itself
      subst hx
      rw [hp0] at hm ⊢
      simp only at hm ⊢
      rw [mapGet_updateLoop_not_mem rest _ additive _ x hn.1]
      rw [mapGet_setScore, if_pos rfl, hp0]
      refine ⟨_, rfl, ?_⟩
      rcases hrest : (updateLoop (setScore ps x (if additive = true then p0.score + d else d))
          rest additive
          (some (minOpt m (if additive = true then p0.score + d else d)))).2 with _ | w2
      · rw [hrest] at hm
        cases hm
      · rw [hrest] at hm
        cases hm
        have hle := updateLoop_min_le rest _ additive _ _ hrest
        have hmin : minOpt m (if additive = true then p0.score + d else d) ≤
            (if additive = true then p0.score + d else d) := by
          cases m <;> simp [minOpt]
        simp only [Option.map_some']
        omega
    · -- x is updated later, in rest
      have hxq : x ≠ n := fun he => hn.1 (he ▸ hx)
      cases hl : mapGet ps n with
      | some p =>
        rw [hl] at hm
        exact ih _ _ hn.2 hm hx
          (by rw [mapGet_setScore, if_neg hxq]; exact hp0)
      | none =>
        rw [hl] at hm
        exact ih _ _ hn.2 hm hx hp0

theorem mapGet_boostAll (ps : List (String × Player)) (c : Int) (x : String) :
    mapGet (boostAll ps c) x =
      (mapGet ps x).map (fun p => { p with score := p.score + c }) := by
  induction ps with
  | nil => rfl
  | cons q t ih =>
    obtain ⟨a, p⟩ := q
    by_cases hxa : x = a
    · subst hxa
      simp [boostAll, mapGet]
    · simp only [boostAll, mapGet, if_neg hxa, ih]

/-- Example game of the spec (section 8): players A and B both at 60,
`reset_score = 2`. -/
def gEx : GameModel := ⟨60, 2, [("A", ⟨60, true⟩), ("B", ⟨60, true⟩)]⟩

/-- Roster in which a player that is not being updated already has a
negative score. -/
def gNeg : GameModel := ⟨0, 2, [("A", ⟨5, true⟩), ("B", ⟨-3, true⟩)]⟩

/-- C1 counterexample: on roster `A = 5, B = -3` the call
`updateScores {A: +1} additive` leaves the roster at `A = 6, B = -3`.
The minimum across all players (-3) is negative, yet no uniform boost is
applied and player B is left with a negative score, because the code
computes the minimum only across the updated players.  This refutes the
claim at a concrete input. -/
theorem updateScores_global_min_counterexample :
    (updateScores gNeg [("A", 1)] true).1.players =
      [("A", ⟨6, true⟩), ("B", ⟨-3, true⟩)] ∧
    mapGet (updateScores gNeg [("A", 1)] true).1.players "B" =
      some ⟨-3, true⟩ ∧
    ((-3 : Int) < 0) := by decide

/-- C1 (amended): the minimum `v` is computed across the updated players
only.  When it is negative, exactly `-v + reset_score` is added to every
player of the roster; every updated player is left with score at least
`reset_score` (hence non-negative when `reset_score` is), and the relative
ordering of all player scores is unchanged by the rebalancing step. -/
theorem updateScores_rebalance (g : GameModel) (ds : List (String × Int))
    (additive : Bool) (v : Int)
    (hn : (ds.map Prod.fst).Nodup)
    (hm : (updateLoop g.players ds additive none).2 = some v)
    (hv : v < 0) (hr : 0 ≤ g.reset_score) :
    (updateScores g ds additive).1.players
      = boostAll (updateLoop g.players ds additive none).1 (-v + g.reset_score)
    ∧ (∀ x ∈ ds.map Prod.fst, ∀ p0 : Player, mapGet g.players x = some p0 →
        ∃ p, mapGet (updateScores g ds additive).1.players x = some p ∧
          g.reset_score ≤ p.score ∧ 0 ≤ p.score)
    ∧ (∀ x1 x2 p1 p2 q1 q2,
        mapGet (updateLoop g.players ds additive none).1 x1 = some p1 →
        mapGet (updateLoop g.players ds additive none).1 x2 = some p2 →
        mapGet (updateScores g ds additive).1.players x1 = some q1 →
        mapGet (updateScores g ds additive).1.players x2 = some q2 →
        (p1.score ≤ p2.score ↔ q1.score ≤ q2.score)) := by
  have hfirst : (updateScores g ds additive).1.players
      = boostAll (updateLoop g.players ds additive none).1 (-v + g.reset_score) := by
    unfold updateScores
    rcases hu : updateLoop g.players ds additive none with ⟨ps, mm⟩
    rw [hu] at hm
    simp only at hm
    subst hm
    simp only [if_pos hv]
  refine ⟨hfirst, ?_, ?_⟩
  · intro x hx p0 hp0
    obtain ⟨p, hp, hvp⟩ :=
      updateLoop_min_mem ds additive v x p0 g.players none hn hm hx hp0
    refine ⟨{ p with score := p.score + (-v + g.reset_score) }, ?_, ?_, ?_⟩
    · rw [hfirst, mapGet_boostAll, hp]
      rfl
    · simp only
      omega
    · simp only
      omega
  · intro x1 x2 p1 p2 q1 q2 hp1 hp2 hq1 hq2
    rw [hfirst, mapGet_boostAll, hp1, Option.map_some'] at hq1
    rw [hfirst, mapGet_boostAll, hp2, Option.map_some'] at hq2
    cases hq1
    cases hq2
    simp only
    omega

/-- Witness for C1 (amended) at the spec example: `{A: 60, B: 60}` with
`reset_score = 2` and delta `A: -65`; the updated player A ends at the
reset score, which is non-negative. -/
theorem updateScores_rebalance_witness :
    ∃ p, mapGet (updateScores gEx [("A", -65)] true).1.players "A" = some p ∧
      gEx.reset_score ≤ p.score ∧ 0 ≤ p.score :=
  (updateScores_rebalance gEx [("A", -65)] true (-5) (by decide) (by decide)
    (by decide) (by decide)).2.1 "A" (by decide) ⟨60, true⟩ (by decide)

/-- C6 counterexample: on the spec example roster the call
`updateScores {A: -65} additive` applies the rebalancing boost (the
intermediate scores `A = -5, B = 60` become `A = 2, B = 67`), yet the
function returns `false` — the claim states the return value is `true`
exactly when rebalancing was applied. -/
theorem updateScores_return_counterexample :
    (updateScores gEx [("A", -65)] true).2 = false ∧
    (updateScores gEx [("A", -65)] true).1.players =
      [("A", ⟨2, true⟩), ("B", ⟨67, true⟩)] ∧
    (updateLoop gEx.players [("A", -65)] true none).1 =
      [("A", ⟨-5, true⟩), ("B", ⟨60, true⟩)] := by decide

/-- C6 (amended): `updateScores` returns `false` exactly when the
rebalancing step was applied, i.e. when the running minimum over the
updated players ended negative; it returns `true`, leaving the
intermediate scores untouched, when that minimum is non-negative or no
tracked update happened at all. -/
theorem updateScores_return_value (g : GameModel) (ds : List (String × Int))
    (additive : Bool) :
    ((updateScores g ds additive).2 = false ↔
      ∃ v, (updateLoop g.players ds additive none).2 = some v ∧ v < 0)
    ∧ (∀ v, (updateLoop g.players ds additive none).2 = some v → v < 0 →
        (updateScores g ds additive).1.players =
          boostAll (updateLoop g.players ds additive none).1 (-v + g.reset_score))
    ∧ (∀ v, (updateLoop g.players ds additive none).2 = some v → 0 ≤ v →
        (updateScores g ds additive).2 = true ∧
        (updateScores g ds additive).1.players =
          (updateLoop g.players ds additive none).1)
    ∧ ((updateLoop g.players ds additive none).2 = none →
        (updateScores g ds additive).2 = true ∧
        (updateScores g ds additive).1.players =
          (updateLoop g.players ds additive none).1) := by
  unfold updateScores
  rcases hu : updateLoop g.players ds additive none with ⟨ps, mm⟩
  cases mm with
  | none =>
    refine ⟨by simp, ?_, ?_, fun _ => ⟨rfl, rfl⟩⟩
    · intro v hv
      cases hv
    · intro v hv
      cases hv
  | some w =>
    by_cases hw : w < 0
    · refine ⟨?_, ?_, ?_, ?_⟩
      · simp only [if_pos hw]
        constructor
        · intro _
          exact ⟨w, rfl, hw⟩
        · intro _
          trivial
      · intro v hv hv2
        cases hv
        simp only [if_pos hw]
      · intro v hv hv2
        cases hv
        omega
      · intro hnone
        cases hnone
    · refine ⟨?_, ?_, ?_, ?_⟩
      · simp only [if_neg hw]
        constructor
        · intro h
          cases h
        · rintro ⟨v, hv, hv2⟩
          cases hv
          omega
      · intro v hv hv2
        cases hv
        omega
      · intro v hv hv2
        cases hv
        simp only [if_neg hw]
        constructor <;> trivial
      · intro hnone
        cases hnone

/-- One row of the data dump of `playerDataDump` (game.ts lines 285-295):
`{ name, ...fields }`. -/
structure PlayerRow where
  name : String
  score : Int
  isplaying : Bool
deriving DecidableEq

/-- Numeric coercion `b ? 1 : 0` used by the sort comparator (game.ts
line 291). -/
def playNum : Bool → Int
  | true => 1
  | false => 0

/-- Rank of the `isplaying` flag inside the comparison key: active players
come first. -/
def playRank : Bool → Nat
  | true => 0
  | false => 1

/-- Model of `String.localeCompare`: negative, zero or positive according
to the order of the two strings. -/
def strcmp (s t : String) : Int :=
  if s < t then -1 else if s = t then 0 else 1

/-- Embedding of the comparator of `playerDataDump` (game.ts lines
291-292): `(b.isplaying?1:0)-(a.isplaying?1:0) || b.score-a.score ||
a.name.localeCompare(b.name)`.  The JS `||` chain takes the first
non-zero value. -/
def jsCmp (a b : PlayerRow) : Int :=
  if playNum b.isplaying - playNum a.isplaying ≠ 0 then
    playNum b.isplaying - playNum a.isplaying
  else if b.score - a.score ≠ 0 then b.score - a.score
  else strcmp a.name b.name

/-- The sort order induced by the comparator: `a` may come before `b`
when the comparator does not demand the opposite order. -/
def jsLE (a b : PlayerRow) : Prop := jsCmp a b ≤ 0

instance : DecidableRel jsLE := fun a b =>
  inferInstanceAs (Decidable (jsCmp a b ≤ 0))

/-- Lexicographic comparison key equivalent to the comparator: `isplaying`
descending, then score descending, then name ascending. -/
def rowKey (a : PlayerRow) : ℕ ×ₗ (ℤ ×ₗ String) :=
  toLex (playRank a.isplaying, toLex (-a.score, a.name))

theorem strcmp_nonpos_iff (s t : String) : strcmp s t ≤ 0 ↔ s ≤ t := by
  unfold strcmp
  rcases lt_trichotomy s t with h | h | h
  · rw [if_pos h]
    simp [le_of_lt h]
  · subst h
    rw [if_neg (lt_irrefl s), if_pos rfl]
    simp
  · rw [if_neg (lt_asymm h), if_neg (ne_of_lt h).symm]
    constructor
    · intro h1
      norm_num at h1
    · intro h2
      exact absurd h2 h.not_le

theorem jsLE_iff (a b : PlayerRow) : jsLE a b ↔ rowKey a ≤ rowKey b := by
  obtain ⟨an, as, ap⟩ := a
  obtain ⟨bn, bs, bp⟩ := b
  simp only [jsLE, jsCmp, rowKey, Prod.Lex.le_iff]
  cases ap <;> cases bp <;> simp only [playNum, playRank] <;> norm_num
  · -- both inactive: compare by score, then name
    by_cases hs : bs - as = 0
    · rw [if_pos hs, strcmp_nonpos_iff]
      constructor
      · intro h2
        exact Or.inr ⟨by omega, String.le_iff_toList_le.mp h2⟩
      · rintro (h2 | ⟨h2, h3⟩)
        · exact absurd h2 (by omega)
        · exact String.le_iff_toList_le.mpr h3
    · rw [if_neg hs]
      constructor
      · intro h2
        exact Or.inl (by omega)
      · rintro (h2 | ⟨h2, h3⟩)
        · omega
        · omega
  · -- both active: compare by score, then name
    by_cases hs : bs - as = 0
    · rw [if_pos hs, strcmp_nonpos_iff]
      constructor
      · intro h2
        exact Or.inr ⟨by omega, String.le_iff_toList_le.mp h2⟩
      · rintro (h2 | ⟨h2, h3⟩)
        · exact absurd h2 (by omega)
        · exact String.le_iff_toList_le.mpr h3
    · rw [if_neg hs]
      constructor
      · intro h2
        exact Or.inl (by omega)
      · rintro (h2 | ⟨h2, h3⟩)
        · omega
        · omega

theorem rowKey_inj (a b : PlayerRow) (h : rowKey a = rowKey b) : a = b := by
  obtain ⟨an, as, ap⟩ := a
  obtain ⟨bn, bs, bp⟩ := b
  simp only [rowKey, toLex_inj, Prod.mk.injEq] at h
  obtain ⟨h1, h2, h3⟩ := h
  have hap : ap = bp := by
    cases ap <;> cases bp <;> simp_all [playRank]
  have has : as = bs := by omega
  subst hap
  subst has
  subst h3
  rfl

instance : IsTotal PlayerRow jsLE :=
  ⟨fun a b => by
    rw [jsLE_iff, jsLE_iff]
    exact le_total _ _⟩

instance : IsTrans PlayerRow jsLE :=
  ⟨fun a b c hab hbc => by
    rw [jsLE_iff] at *
    exact le_trans hab hbc⟩

instance : IsAntisymm PlayerRow jsLE :=
  ⟨fun a b hab hba => by
    rw [jsLE_iff] at hab hba
    exact rowKey_inj _ _ (le_antisymm hab hba)⟩

/-- Embedding of the first statement of `playerDataDump` (game.ts lines
287-288): turn the map entries into rows `{ name, ...fields }` in
insertion order. -/
def toRows (ps : List (String × Player)) : List PlayerRow :=
  ps.map (fun q => ⟨q.1, q.2.score, q.2.isplaying⟩)

/-- Embedding of `playerDataDump` (game.ts lines 285-295): the rows sorted
by the comparator `jsCmp`. -/
def playerDataDump (ps : List (String × Player)) : List PlayerRow :=
  List.insertionSort jsLE (toRows ps)

theorem jsLE_tiebreak (a b : PlayerRow) (hp : a.isplaying = b.isplaying)
    (hs : a.score = b.score) (h : jsLE a b) : a.name ≤ b.name := by
  rw [jsLE_iff] at h
  unfold rowKey at h
  rw [Prod.Lex.le_iff] at h
  rcases h with h | ⟨h1, h2⟩
  · rw [hp] at h
    exact absurd h (lt_irrefl _)
  · rw [Prod.Lex.le_iff] at h2
    rcases h2 with h2 | ⟨h3, h4⟩
    · exfalso
      simp only at h2
      omega
    · exact h4

/-- C7: the data dump is sorted by the comparator order (`isplaying`
descending, then score descending, then name ascending), it is a
permutation of the rows of the roster, it is deterministic (two rosters
holding the same rows in any order dump identically), and rows that agree
on `isplaying` and `score` appear in strictly ascending name order when
the roster names are free of duplicates. -/
theorem playerDataDump_contract (ps qs : List (String × Player))
    (hperm : (toRows ps).Perm (toRows qs))
    (hnames : (ps.map Prod.fst).Nodup) :
    List.Sorted jsLE (playerDataDump ps)
    ∧ (playerDataDump ps).Perm (toRows ps)
    ∧ playerDataDump ps = playerDataDump qs
    ∧ List.Pairwise
        (fun a b : PlayerRow => a.isplaying = b.isplaying → a.score = b.score →
          a.name < b.name)
        (playerDataDump ps) := by
  have hs1 : List.Sorted jsLE (playerDataDump ps) :=
    List.sorted_insertionSort jsLE (toRows ps)
  have hp1 : (playerDataDump ps).Perm (toRows ps) :=
    List.perm_insertionSort jsLE (toRows ps)
  have hs2 : List.Sorted jsLE (playerDataDump qs) :=
    List.sorted_insertionSort jsLE (toRows qs)
  have hp2 : (playerDataDump qs).Perm (toRows qs) :=
    List.perm_insertionSort jsLE (toRows qs)
  have heq : playerDataDump ps = playerDataDump qs :=
    List.eq_of_perm_of_sorted (hp1.trans (hperm.trans hp2.symm)) hs1 hs2
  refine ⟨hs1, hp1, heq, ?_⟩
  have hnr : ((toRows ps).map PlayerRow.name).Nodup := by
    have hmap : (toRows ps).map PlayerRow.name = ps.map Prod.fst := by
      unfold toRows
      rw [List.map_map]
      rfl
    rw [hmap]
    exact hnames
  have hnd : ((playerDataDump ps).map PlayerRow.name).Nodup :=
    ((hp1.map PlayerRow.name).nodup_iff).mpr hnr
  have hpn : (playerDataDump ps).Pairwise (fun a b => a.name ≠ b.name) :=
    List.pairwise_map.mp hnd
  exact (List.Pairwise.and hs1 hpn).imp
    (fun {a b} hab hp hs => lt_of_le_of_ne (jsLE_tiebreak a b hp hs hab.1) hab.2)

/-- Roster with a name tie on `(isplaying, score)` used as witness
input. -/
def psEx : List (String × Player) :=
  [("b", ⟨3, true⟩), ("a", ⟨3, true⟩), ("c", ⟨5, false⟩)]

/-- The same roster rows as `psEx` in a different insertion order. -/
def qsEx : List (String × Player) :=
  [("a", ⟨3, true⟩), ("c", ⟨5, false⟩), ("b", ⟨3, true⟩)]

/-- Witness for C7 at a concrete roster with a score tie. -/
theorem playerDataDump_contract_witness :
    List.Sorted jsLE (playerDataDump psEx)
    ∧ (playerDataDump psEx).Perm (toRows psEx)
    ∧ playerDataDump psEx = playerDataDump qsEx
    ∧ List.Pairwise
        (fun a b : PlayerRow => a.isplaying = b.isplaying → a.score = b.score →
          a.name < b.name)
        (playerDataDump psEx) :=
  playerDataDump_contract psEx qsEx (by decide) (by decide)

/-- Embedding of `gameStateChange` (game.ts lines 180-186): the payload is
first rebuilt as `{ widget_name: currentState().name, ...msg }` and then
delivered unchanged to every game listener in subscription order. -/
def gameStateChange (g : GameSM) (listeners : List Nat) (msg : GameDataMsg) :
    List (Nat × GameDataMsg) :=
  listeners.map (fun l => (l, spreadWidgetName (currentStateD g).name msg))

/-- C3 counterexample: with the active state named `lobby`, publishing a
payload that already carries `widget_name = "X"` delivers `widget_name =
"X"` to the listener — the payload of the caller wins over the true
active-state name, because the object spread `{ widget_name: ..., ...msg }`
puts the caller fields last.  This refutes the claim at a concrete
input. -/
theorem gameStateChange_override_counterexample :
    gameStateChange ⟨[⟨"lobby", ⟨none, "s"⟩⟩], 0⟩ [7] ⟨some "X", "i"⟩ =
      [(7, ⟨some "X", "i"⟩)] ∧
    (currentStateD ⟨[⟨"lobby", ⟨none, "s"⟩⟩], 0⟩).name = "lobby" ∧
    some "X" ≠ some "lobby" := by decide

/-- C3 (amended): `gameStateChange` fills in the current active state name
as the default `widget_name`: every listener receives it when the payload
of the caller omits the field, but a `widget_name` supplied by the caller
takes precedence (the source comments call this room to overwrite). -/
theorem gameStateChange_default_widget_name (g : GameSM) (ls : List Nat)
    (i : String) :
    (∀ q ∈ gameStateChange g ls ⟨none, i⟩,
        q.2.widget_name = some (currentStateD g).name ∧ q.2.info = i)
    ∧ (∀ w, ∀ q ∈ gameStateChange g ls ⟨some w, i⟩,
        q.2.widget_name = some w ∧ q.2.info = i) := by
  constructor
  · intro q hq
    simp only [gameStateChange, List.mem_map] at hq
    obtain ⟨l, _, rfl⟩ := hq
    exact ⟨rfl, rfl⟩
  · intro w q hq
    simp only [gameStateChange, List.mem_map] at hq
    obtain ⟨l, _, rfl⟩ := hq
    exact ⟨rfl, rfl⟩

/-- Witness for C3 (amended) at a concrete publish without a caller
`widget_name`. -/
theorem gameStateChange_default_widget_name_witness :
    ((7 : Nat), (⟨some "lobby", "i"⟩ : GameDataMsg)).2.widget_name =
      some (currentStateD ⟨[⟨"lobby", ⟨none, "s"⟩⟩], 0⟩).name ∧
    ((7 : Nat), (⟨some "lobby", "i"⟩ : GameDataMsg)).2.info = "i" :=
  (gameStateChange_default_widget_name ⟨[⟨"lobby", ⟨none, "s"⟩⟩], 0⟩ [7] "i").1
    (7, ⟨some "lobby", "i"⟩) (by decide)

/-- The route-to-listener state of class `Server` (server.ts): the
websocket `routeMap` (keyed by protocol, i.e. the route without the
leading slash) and the express GET registrations in registration order
(express dispatches a request to the first matching registration). -/
structure ServerModel where
  routeMap : List (String × Nat)
  expressGets : List (String × Nat)
deriving DecidableEq

/-- Embedding of `Map.set(k, v)`: overwrite the value of an existing key
in place, otherwise append the new entry. -/
def mapSet {β : Type} (m : List (String × β)) (k : String) (v : β) :
    List (String × β) :=
  match m with
  | [] => [(k, v)]
  | (a, w) :: t => if a = k then (a, v) :: t else (a, w) :: mapSet t k v

/-- Embedding of `addServerListener` (server.ts lines 94-106): the
duplicate check tests `routeMap.has(route)` with the full route (leading
slash included), then stores the listener under `route.substring(1)` and
appends an express GET registration for the full route.  Listeners are
identified by numbers. -/
def addServerListener (s : ServerModel) (route : String) (listener : Nat) :
    ServerModel × Bool :=
  if (mapGet s.routeMap route).isSome then (s, false)
  else
    ({ routeMap := mapSet s.routeMap (route.drop 1) listener,
       expressGets := s.expressGets ++ [(route, listener)] }, true)

/-- Embedding of the websocket connection dispatch (server.ts lines
63-75): the socket protocol is looked up in `routeMap`; `none` means the
connection is closed with code 1003. -/
def wsConnection (s : ServerModel) (protocol : String) : Option Nat :=
  mapGet s.routeMap protocol

/-- Embedding of the express GET dispatch: the first registration whose
route matches handles the request. -/
def expressDispatch (s : ServerModel) (route : String) : Option Nat :=
  (s.expressGets.find? (fun q => q.1 == route)).map Prod.snd

/-- C4: evaluation of the code at the failing input.  Registering
listener 1 on route `/big` and then listener 2 on the same route: the
second registration is accepted (returns without the warned no-op),
because the duplicate check looks up `/big` while the map keys are stored
without the slash; the websocket binding is overwritten, so a connection
with protocol `big` reaches listener 2 while an express GET still reaches
listener 1. -/
theorem addServerListener_duplicate_overwrites :
    (addServerListener (addServerListener ⟨[], []⟩ "/big" 1).1 "/big" 2).2
      = true ∧
    wsConnection
      (addServerListener (addServerListener ⟨[], []⟩ "/big" 1).1 "/big" 2).1
      "big" = some 2 ∧
    expressDispatch
      (addServerListener (addServerListener ⟨[], []⟩ "/big" 1).1 "/big" 2).1
      "/big" = some 1 := by decide

/-- The reserved ping token of the heartbeat protocol (server.ts). -/
def pingToken : String := "🏓"

/-- The reserved pong token of the heartbeat protocol (server.ts). -/
def pongToken : String := "👌🏻"

/-- Embedding of the default listener installed by `makePingable`
(server.ts line 135): before any handler is installed, every message is
answered with the pong token.  A message handler maps the received text
to the list of replies sent on the socket. -/
def defaultOnMessage : String → List String := fun _ => [pongToken]

/-- Embedding of the `onmessage` setter installed by `makePingable`
(server.ts lines 140-154): installing a handler removes all previous
listeners and installs a wrapper that answers the ping token with the
pong token and forwards every other message to the installed handler. -/
def installOnMessage (h : String → List String) : String → List String :=
  fun d => if d = pingToken then [pongToken] else h d

/-- The active message listener of a socket after `makePingable` and a
sequence of handler installations (each later one replaces the previous
wrapper). -/
def makePingable (installs : List (String → List String)) :
    String → List String :=
  installs.foldl (fun _ h => installOnMessage h) defaultOnMessage

theorem makePingable_aux (installs : List (String → List String)) :
    ∀ start : String → List String, start pingToken = [pongToken] →
      (installs.foldl (fun _ h => installOnMessage h) start) pingToken
        = [pongToken] := by
  induction installs with
  | nil => intro start h0; exact h0
  | cons h t ih =>
    intro start h0
    exact ih _ (by simp [installOnMessage])

/-- C8: after `makePingable`, and after any number of handler
installations, the socket answers the ping token with exactly the pong
token; the wrapper intercepts the ping token without consulting the
installed handler (the answer is independent of it), and forwards every
other message to the installed handler unchanged. -/
theorem makePingable_ping_pong (installs : List (String → List String)) :
    makePingable installs pingToken = [pongToken]
    ∧ (∀ h, installOnMessage h pingToken = [pongToken])
    ∧ (∀ h d, d ≠ pingToken → installOnMessage h d = h d) := by
  refine ⟨makePingable_aux installs defaultOnMessage rfl,
    fun h => by simp [installOnMessage],
    fun h d hd => by simp [installOnMessage, hd]⟩

/-- Witness for C8 at a concrete handler (an echo handler installed
once). -/
theorem makePingable_ping_pong_witness :
    makePingable [fun d => [d]] pingToken = [pongToken]
    ∧ installOnMessage (fun d => [d]) pingToken = [pongToken]
    ∧ installOnMessage (fun d => [d]) "hello" = ["hello"] :=
  ⟨(makePingable_ping_pong [fun d => [d]]).1,
   (makePingable_ping_pong [fun d => [d]]).2.1 _,
   (makePingable_ping_pong [fun d => [d]]).2.2 _ "hello" (by decide)⟩

/-- One game listener for the fan-out model: an identity and whether its
callback unsubscribes the listener itself during the publish. -/
structure CListener where
  id : Nat
  self_unsub : Bool
deriving DecidableEq

/-- Embedding of `removeGameListener` (game.ts lines 154-159): `indexOf`
followed by `splice(idx, 1)` removes the first occurrence when present
and is a no-op otherwise. -/
def removeGameListener (ls : List CListener) (l : CListener) :
    List CListener :=
  match ls with
  | [] => []
  | x :: xs => if x = l then xs else x :: removeGameListener xs l

/-- Embedding of the fan-out loop `for (const l of listeners)` (game.ts
lines 183-185) with the live-array iteration semantics of JS: the
iterator keeps a numeric cursor into the array while the array mutates.
A listener whose `self_unsub` flag is set removes itself (via
`removeGameListener`) during its own callback.  Returns the ids of the
listeners whose callback ran, in delivery order.  The fuel argument is
instantiated with the list length, which the cursor can never outrun. -/
def fanoutLoop (fuel : Nat) (ls : List CListener) (k : Nat) (acc : List Nat) :
    List Nat :=
  match fuel with
  | 0 => acc
  | fuel + 1 =>
    if h : k < ls.length then
      fanoutLoop fuel
        (if ls[k].self_unsub then removeGameListener ls ls[k] else ls)
        (k + 1) (acc ++ [ls[k].id])
    else acc

/-- One publish over the listener list: fan-out with self-unsubscription
effects. -/
def fanout (ls : List CListener) : List Nat :=
  fanoutLoop ls.length ls 0 []

theorem removeGameListener_sublist (ls : List CListener) (l : CListener) :
    (removeGameListener ls l).Sublist ls := by
  induction ls with
  | nil => exact List.Sublist.refl _
  | cons x xs ih =>
    simp only [removeGameListener]
    by_cases h : x = l
    · rw [if_pos h]
      exact List.sublist_cons_self x xs
    · rw [if_neg h]
      exact ih.cons₂ x

theorem removeGameListener_drop (ls : List CListener) :
    ∀ (k : Nat) (hk : k < ls.length), ls.Nodup →
      (removeGameListener ls ls[k]).drop k = ls.drop (k + 1) := by
  induction ls with
  | nil =>
    intro k hk
    simp at hk
  | cons x xs ih =>
    intro k hk hnd
    cases k with
    | zero =>
      rw [List.getElem_cons_zero]
      simp [removeGameListener]
    | succ k =>
      have hk2 : k < xs.length := by simpa using hk
      rw [List.getElem_cons_succ]
      have hmem : xs[k] ∈ xs := List.getElem_mem hk2
      have hx : x ≠ xs[k] :=
        fun he => (List.nodup_cons.mp hnd).1 (he ▸ hmem)
      have hrm : removeGameListener (x :: xs) xs[k]
          = x :: removeGameListener xs xs[k] := by
        simp only [removeGameListener]
        rw [if_neg hx]
      rw [hrm, List.drop_succ_cons, List.drop_succ_cons]
      exact ih k hk2 (List.nodup_cons.mp hnd).2

theorem fanoutLoop_spec (fuel : Nat) :
    ∀ (ls : List CListener) (k : Nat) (acc : List Nat),
      ls.length - k ≤ fuel → ls.Nodup →
      ∃ rest, fanoutLoop fuel ls k acc = acc ++ rest ∧
        rest.Sublist ((ls.drop k).map CListener.id) := by
  induction fuel with
  | zero =>
    intro ls k acc hn hnd
    refine ⟨[], by simp [fanoutLoop], List.nil_sublist _⟩
  | succ fuel ih =>
    intro ls k acc hn hnd
    by_cases h : k < ls.length
    · rw [fanoutLoop, dif_pos h]
      by_cases hu : ls[k].self_unsub
      · rw [if_pos hu]
        have hsubl := removeGameListener_sublist ls ls[k]
        obtain ⟨rest, he, hsub⟩ :=
          ih (removeGameListener ls ls[k]) (k + 1) (acc ++ [ls[k].id])
            (by have := hsubl.length_le; omega) (hsubl.nodup hnd)
        refine ⟨ls[k].id :: rest, by rw [he]; simp, ?_⟩
        have hdp : (removeGameListener ls ls[k]).drop (k + 1)
            = ls.drop (k + 1 + 1) := by
          have h1 : (removeGameListener ls ls[k]).drop (k + 1)
              = ((removeGameListener ls ls[k]).drop k).drop 1 := by
            rw [List.drop_drop]
          rw [h1, removeGameListener_drop ls k h hnd, List.drop_drop]
        rw [hdp] at hsub
        have h2 : (ls.drop (k + 1 + 1)).Sublist (ls.drop (k + 1)) := by
          have h3 : ((ls.drop (k + 1)).drop 1).Sublist (ls.drop (k + 1)) :=
            List.drop_sublist 1 _
          rwa [List.drop_drop] at h3
        have h4 : rest.Sublist ((ls.drop (k + 1)).map CListener.id) :=
          hsub.trans (h2.map CListener.id)
        rw [List.drop_eq_getElem_cons h, List.map_cons]
        exact h4.cons₂ _
      · rw [if_neg hu]
        obtain ⟨rest, he, hsub⟩ :=
          ih ls (k + 1) (acc ++ [ls[k].id]) (by omega) hnd
        refine ⟨ls[k].id :: rest, by rw [he]; simp, ?_⟩
        rw [List.drop_eq_getElem_cons h, List.map_cons]
        exact hsub.cons₂ _
    · rw [fanoutLoop, dif_neg h]
      exact ⟨[], by simp, List.nil_sublist _⟩

theorem fanout_sublist (ls : List CListener) (hnd : ls.Nodup) :
    (fanout ls).Sublist (ls.map CListener.id) := by
  obtain ⟨rest, he, hsub⟩ :=
    fanoutLoop_spec ls.length ls 0 [] (by omega) hnd
  rw [fanout, he]
  simpa using hsub

/-- C9 counterexample: listeners 0, 1, 2 are subscribed and listener 0
unsubscribes itself during the publish.  Listener 1 stays subscribed
(only listener 0 was removed), yet the fan-out delivers to listeners 0
and 2 only — the unrelated listener 1 is skipped, because the `splice`
shifts the array under the numeric cursor of the live `for...of`
iteration.  This refutes the claim at a concrete input. -/
theorem fanout_skips_neighbor_counterexample :
    fanout [⟨0, true⟩, ⟨1, false⟩, ⟨2, false⟩] = [0, 2]
    ∧ removeGameListener [⟨0, true⟩, ⟨1, false⟩, ⟨2, false⟩] ⟨0, true⟩ =
        [⟨1, false⟩, ⟨2, false⟩]
    ∧ (1 : Nat) ∉ fanout [⟨0, true⟩, ⟨1, false⟩, ⟨2, false⟩] := by decide

/-- C9 (amended): for a duplicate-free listener list, a publish during
which listeners may unsubscribe themselves never throws and never
iterates past the end of the list: the delivered ids form a subsequence
of the subscription order, each listener receives the payload at most
once, and at most `length` deliveries happen.  However, the listener
immediately following a self-unsubscribing one in subscription order is
skipped for that publish (see the counterexample), so unrelated listeners
are not all guaranteed delivery. -/
theorem fanout_safe (ls : List CListener) (hnd : ls.Nodup)
    (hid : (ls.map CListener.id).Nodup) :
    (fanout ls).Sublist (ls.map CListener.id)
    ∧ (fanout ls).Nodup
    ∧ (fanout ls).length ≤ ls.length := by
  have hs := fanout_sublist ls hnd
  exact ⟨hs, hs.nodup hid, by simpa using hs.length_le⟩

/-- Witness for C9 (amended) at the counterexample listener list. -/
theorem fanout_safe_witness :
    (fanout [⟨0, true⟩, ⟨1, false⟩, ⟨2, false⟩]).Sublist
      ([⟨0, true⟩, ⟨1, false⟩, ⟨2, false⟩].map CListener.id)
    ∧ (fanout [⟨0, true⟩, ⟨1, false⟩, ⟨2, false⟩]).Nodup
    ∧ (fanout [⟨0, true⟩, ⟨1, false⟩, ⟨2, false⟩]).length ≤ 3 :=
  fanout_safe [⟨0, true⟩, ⟨1, false⟩, ⟨2, false⟩] (by decide) (by decide)

end PubQuiz
